import Mathlib

/-!
Shallow embedding of ciscoheat/sveltekit-rate-limiter (the server rate
limiter) and proofs about its specification.

Source files embedded:
* `src/lib/rate.ts` — `RateUnit`, `TTLTime`
* `src/lib/server/stores/ttlStore.ts` — `TTLStore` over `@isaacs/ttlcache`
* `src/lib/server/stores/retryAfterStore.ts` — `RetryAfterStore`
* `src/lib/server/rateLimiter.ts` — `RateLimiter._isLimited`, constructor
* `src/lib/server/retryAfterRateLimiter.ts` — `RetryAfterRateLimiter.check`
* `src/lib/server/limiters/cookieRateLimiter.ts` — `userIdFromCookie`

Machine integers are modelled as `Nat` (the TS values involved are
non-negative integers well below 2^53, where JS number arithmetic is exact).
Time is an explicit `now : Nat` parameter (milliseconds). Fallible code
(`throw`) returns `Except String`.
-/

namespace SKRL

/-! ### rate.ts -/

/-- The `RateUnit` string union from `src/lib/rate.ts`. -/
inductive RateUnit where
  | ms | ms100 | ms250 | ms500
  | s | s2 | s5 | s10 | s15 | s30 | s45
  | m | m2 | m5 | m10 | m15 | m30 | m45
  | h | h2 | h6 | h12 | d
deriving DecidableEq, Repr

/-- `TTLTime` from `src/lib/rate.ts`: a rate unit in milliseconds. -/
def TTLTime : RateUnit → Nat
  | .s => 1000
  | .m => 60000
  | .h => 60 * 60000
  | .s2 => 2000
  | .s5 => 5000
  | .s10 => 10000
  | .s15 => 15000
  | .s30 => 30000
  | .s45 => 45000
  | .m2 => 2 * 60000
  | .m5 => 5 * 60000
  | .m10 => 10 * 60000
  | .m15 => 15 * 60000
  | .m30 => 30 * 60000
  | .m45 => 45 * 60000
  | .ms100 => 100
  | .ms250 => 250
  | .ms500 => 500
  | .h2 => 2 * 60 * 60000
  | .h6 => 6 * 60 * 60000
  | .h12 => 12 * 60 * 60000
  | .d => 24 * 60 * 60000
  | .ms => 1

/-! ### The TTL cache (`@isaacs/ttlcache` as used by both stores)

An entry holds a numeric value and an absolute expiry time.  A key is live
at `now` iff `now < expireAt`.  Expired entries are treated as purged, which
is the observable behaviour of `TTLCache` (expired keys are deleted by
timers and `get` never returns them). -/

/-- One cache entry: stored numeric value and absolute expiry (ms). -/
structure StoreEntry where
  value : Nat
  expireAt : Nat
deriving DecidableEq, Repr

/-- The cache contents, as an association list keyed by the hash string. -/
abbrev Cache := List (String × StoreEntry)

/-- `TTLCache.get`: the stored value if the key is live at `now`. -/
def cacheGet (c : Cache) (now : Nat) (k : String) : Option Nat :=
  match c.find? (fun p => p.1 == k) with
  | some p => if now < p.2.expireAt then some p.2.value else none
  | none => none

/-- `TTLCache.set` with `noUpdateTTL: true`: a live key keeps its expiry and
only its value is replaced; otherwise (absent, or expired and hence purged)
a fresh entry with expiry `now + ttl` is written. -/
def cacheSet (c : Cache) (now : Nat) (k : String) (v : Nat) (ttl : Nat) : Cache :=
  if (cacheGet c now k).isSome then
    c.map (fun p => if p.1 == k then (p.1, { p.2 with value := v }) else p)
  else
    (k, ⟨v, now + ttl⟩) :: c.filter (fun p => !(p.1 == k))

/-- `TTLStore.add` from `src/lib/server/stores/ttlStore.ts`:
read the current count (0 if absent), store count+1, return it. -/
def ttlStoreAdd (c : Cache) (now : Nat) (k : String) (ttl : Nat) : Nat × Cache :=
  let currentRate := (cacheGet c now k).getD 0
  (currentRate + 1, cacheSet c now k (currentRate + 1) ttl)

/-- `RetryAfterStore.add` from `src/lib/server/stores/retryAfterStore.ts`:
`if (currentRate) return cache.get(hash) ?? 0;` then store `now + ttl`. -/
def retryStoreAdd (c : Cache) (now : Nat) (k : String) (ttl : Nat) : Nat × Cache :=
  match cacheGet c now k with
  | some v =>
    if v ≠ 0 then (v, c)
    else (now + ttl, cacheSet c now k (now + ttl) ttl)
  | none => (now + ttl, cacheSet c now k (now + ttl) ttl)

/-! ### RateLimiter._isLimited (`src/lib/server/rateLimiter.ts`) -/

/-- The value a plugin's `hash(event)` can produce:
a string token, `true`, `false`, or `null`. -/
inductive PluginId where
  | token (s : String)
  | allow
  | reject
  | indeterminate
deriving DecidableEq, Repr

/-- One evaluation slot: `rate[0]` (limit) and `rate[1]` (window in ms). -/
structure Slot where
  limit : Nat
  window : Nat
deriving DecidableEq, Repr

/-- The reason passed to the `onLimited` callback. -/
inductive LimitReason where
  | rate
  | rejected
deriving DecidableEq, Repr

/-- The record `_isLimited` resolves with. -/
structure RLResult where
  limited : Bool
  hash : Option String
  ttl : Nat
deriving DecidableEq, Repr

/-- The composite counter key built in the loop body:
`i.toString() + (await this.hashFunction(id))`. -/
def slotKey (hashFn : String → String) (i : Nat) (id : String) : String :=
  toString i ++ hashFn id

/-- The loop of `_isLimited` over the remaining slots.  `i` is the current
slot index, `tentative` the `limited` local (`none` = `undefined`),
`finalTtl` the ttl used by the fall-through return (the last slot's window).
The `onLimited` callback is modelled as a function of the reason returning
`Option Bool` (`none` = `void`); `status === true` is `= some true`. -/
def isLimitedLoop (hashFn : String → String)
    (onLimited : Option (LimitReason → Option Bool)) (now finalTtl : Nat) :
    List (Slot × PluginId) → Nat → Option Bool → Cache →
      Except String (RLResult × Cache)
  | [], _, tentative, store => .ok (⟨tentative.getD false, none, finalTtl⟩, store)
  | (slot, id) :: rest, i, tentative, store =>
    match id with
    | .reject =>
      match onLimited with
      | some cb =>
        if cb .rejected = some true then .ok (⟨false, none, slot.window⟩, store)
        else .ok (⟨true, none, slot.window⟩, store)
      | none => .ok (⟨true, none, slot.window⟩, store)
    | .indeterminate =>
      isLimitedLoop hashFn onLimited now finalTtl rest (i + 1)
        (if tentative = none then some true else tentative) store
    | .allow => .ok (⟨false, none, slot.window⟩, store)
    | .token s =>
      if s = "" then .error "Empty hash returned from rate limiter"
      else
        let key := slotKey hashFn i s
        let res := ttlStoreAdd store now key slot.window
        if res.1 > slot.limit then
          match onLimited with
          | some cb =>
            if cb .rate = some true then .ok (⟨false, some key, slot.window⟩, res.2)
            else .ok (⟨true, some key, slot.window⟩, res.2)
          | none => .ok (⟨true, some key, slot.window⟩, res.2)
        else
          isLimitedLoop hashFn onLimited now finalTtl rest (i + 1) (some false) res.2

/-- The ttl of the fall-through return:
`this.plugins[this.plugins.length - 1].rate[1]` (slot list is nonempty). -/
def lastWindow (slots : List (Slot × PluginId)) : Nat :=
  ((slots.getLast?).map (fun p => p.1.window)).getD 0

/-- `RateLimiter._isLimited`: run the slot loop from index 0 with the
`limited` local undefined.  Each slot is paired with the `PluginId` its
plugin's `hash(event)` returns for this call. -/
def rateLimit (hashFn : String → String)
    (onLimited : Option (LimitReason → Option Bool))
    (slots : List (Slot × PluginId)) (now : Nat) (store : Cache) :
    Except String (RLResult × Cache) :=
  isLimitedLoop hashFn onLimited now (lastWindow slots) slots 0 none store

/-- A sequence of `_isLimited` calls at the given times, threading the
store.  A thrown error propagates to the caller and leaves the store as it
was (the throw happens before any increment for that slot). -/
def rateLimitSeq (hashFn : String → String)
    (onLimited : Option (LimitReason → Option Bool))
    (slots : List (Slot × PluginId)) :
    List Nat → Cache → List (Except String RLResult) × Cache
  | [], store => ([], store)
  | t :: ts, store =>
    match rateLimit hashFn onLimited slots t store with
    | .ok (r, store') =>
      let rest := rateLimitSeq hashFn onLimited slots ts store'
      (.ok r :: rest.1, rest.2)
    | .error e =>
      let rest := rateLimitSeq hashFn onLimited slots ts store
      (.error e :: rest.1, rest.2)

/-! ### RetryAfterRateLimiter (`src/lib/server/retryAfterRateLimiter.ts`) -/

/-- `RetryAfterRateLimiter.toSeconds`: `Math.max(0, Math.floor(rateMs / 1000))`.
`rateMs` is non-negative here (`Nat` subtraction already truncates at 0 just
as `max(0, floor _)` does for a negative difference). -/
def toSeconds (rateMs : Nat) : Nat := max 0 (rateMs / 1000)

/-- The record `RetryAfterRateLimiter.check` resolves with. -/
structure RetryResult where
  limited : Bool
  retryAfter : Nat
deriving DecidableEq, Repr

/-- `RetryAfterRateLimiter.check`: run `_isLimited`; not limited reports 0;
limited with no counter key reports `toSeconds(ttl)` without touching the
retry store; otherwise reserve/read the retry store and report the seconds
until the reserved timestamp. -/
def retryCheck (hashFn : String → String)
    (onLimited : Option (LimitReason → Option Bool))
    (slots : List (Slot × PluginId)) (now : Nat)
    (store retryStore : Cache) :
    Except String (RetryResult × Cache × Cache) :=
  match rateLimit hashFn onLimited slots now store with
  | .error e => .error e
  | .ok (r, store') =>
    if r.limited = false then .ok (⟨false, 0⟩, store', retryStore)
    else
      match r.hash with
      | none => .ok (⟨true, toSeconds r.ttl⟩, store', retryStore)
      | some h =>
        let res := retryStoreAdd retryStore now h r.ttl
        .ok (⟨true, toSeconds (res.1 - now)⟩, store', res.2)

/-! ### CookieRateLimiter (`src/lib/server/limiters/cookieRateLimiter.ts`) -/

/-- JS `cookie.split(';')` on the character list: every occurrence of `;`
separates fields; the empty string yields one empty field. -/
def splitSemis : List Char → List (List Char)
  | [] => [[]]
  | c :: rest =>
    let r := splitSemis rest
    if c = ';' then [] :: r
    else (c :: r.headD []) :: r.tail

/-- `cookie.split(';')` as a list of strings. -/
def cookieFields (c : String) : List String :=
  (splitSemis c.data).map (fun l => String.mk l)

/-- `CookieRateLimiter.userIdFromCookie` under the preflight-required
policy (`requirePreflight = true`, so `empty()` returns `null`):
falsy cookie → null; destructure `cookie.split(';')` into its first two
fields (`undefined` and `''` are both falsy, modelled as `""`); both must
be truthy and the signature must match, else null. -/
def userIdFromCookie (hashFn : String → String) (secret : String)
    (cookie : Option String) : Option String :=
  match cookie with
  | none => none
  | some c =>
    if c = "" then none
    else
      let userId := (cookieFields c).getD 0 ""
      let secretHash := (cookieFields c).getD 1 ""
      if userId = "" ∨ secretHash = "" then none
      else if hashFn (secret ++ userId) ≠ secretHash then none
      else some userId

/-- `CookieRateLimiter.hash` under preflight-required:
`currentId ? currentId : false`. -/
def cookiePluginHash (hashFn : String → String) (secret : String)
    (cookie : Option String) : PluginId :=
  match userIdFromCookie hashFn secret cookie with
  | some s => if s ≠ "" then .token s else .reject
  | none => .reject

/-! ### The constructor's slot list (`RateLimiter` constructor)

`mapPluginRates` flattens each plugin's rates (throwing on an empty rate
array), the flattened list must be nonempty, and it is then sorted with the
comparator `(a, b) => a.rate[1] - b.rate[1] || a.rate[0] - b.rate[0]`
(ascending window, ties by ascending limit).  `Array.prototype.sort` is
modelled by insertion sort over the comparator's `≤` relation — the claims
concern only sortedness of the result. -/

/-- The order the constructor's comparator sorts by:
ascending window, ties broken by ascending limit. -/
def slotRel (a b : Slot) : Prop :=
  a.window < b.window ∨ (a.window = b.window ∧ a.limit ≤ b.limit)

instance : DecidableRel slotRel := fun a b => by
  unfold slotRel; infer_instance

instance : IsTotal Slot slotRel := ⟨by intro a b; unfold slotRel; omega⟩

instance : IsTrans Slot slotRel := ⟨by intro a b c; unfold slotRel; omega⟩

/-- The constructor's plugin setup: each configured plugin contributes its
list of rates (`limit`, unit); an empty rate list throws, the flattened
slot list must be nonempty, and the result is sorted by `slotRel`. -/
def buildSlots (confs : List (List (Nat × RateUnit))) : Except String (List Slot) :=
  if confs.any (fun c => c.isEmpty) then .error "Empty rate for limiter"
  else
    let slots := (confs.map (fun c =>
      c.map (fun r => (⟨r.1, TTLTime r.2⟩ : Slot)))).flatten
    if slots.isEmpty then .error "No plugins set for RateLimiter!"
    else .ok (slots.insertionSort slotRel)

/-- A constructed `RateLimiter`: the immutable sorted slot list and the
mutable store contents. -/
structure Limiter where
  plugins : List Slot
  store : Cache
deriving DecidableEq, Repr

/-- The `RateLimiter` constructor (plugin setup portion). -/
def newRateLimiter (confs : List (List (Nat × RateUnit))) : Except String Limiter :=
  match buildSlots confs with
  | .error e => .error e
  | .ok slots => .ok ⟨slots, []⟩

/-- `isLimited` on a constructed limiter: evaluate the slot chain in list
order, `ids i` being what slot `i`'s plugin returns for this event.
Only the store changes. -/
def limiterCall (hashFn : String → String)
    (onLimited : Option (LimitReason → Option Bool))
    (ids : Nat → PluginId) (now : Nat) (l : Limiter) :
    Except String (RLResult × Limiter) :=
  match rateLimit hashFn onLimited (l.plugins.enum.map (fun p => (p.2, ids p.1)))
      now l.store with
  | .error e => .error e
  | .ok (r, store') => .ok (r, { l with store := store' })

/-- `RateLimiter.clear`: `store.clear()`. -/
def limiterClear (l : Limiter) : Limiter := { l with store := [] }

/-! ### Decimal representation facts

`slotKey` prefixes the counter key with `i.toString()`; the claims about
key collisions need injectivity of the decimal representation of `Nat`. -/

/-- Decimal digit characters of `n`, most significant first. -/
def decDigits (n : Nat) : List Char :=
  if h : n / 10 = 0 then [Nat.digitChar (n % 10)]
  else decDigits (n / 10) ++ [Nat.digitChar (n % 10)]
termination_by n
decreasing_by exact Nat.div_lt_self (by omega) (by omega)

lemma toDigitsCore_eq (fuel n : Nat) (ds : List Char) (h : n < fuel) :
    Nat.toDigitsCore 10 fuel n ds = decDigits n ++ ds := by
  induction fuel generalizing n ds with
  | zero => omega
  | succ f ih =>
    rw [Nat.toDigitsCore]
    by_cases h0 : n / 10 = 0
    · simp [h0, decDigits]
    · have hn : 0 < n := by
        rcases Nat.eq_zero_or_pos n with h1 | h1
        · rw [h1] at h0; simp at h0
        · exact h1
      have hd : n / 10 < n := Nat.div_lt_self hn (by omega)
      rw [if_neg h0, ih _ _ (by omega)]
      conv_rhs => rw [decDigits]
      rw [dif_neg h0, List.append_assoc]
      rfl

lemma natRepr_eq (n : Nat) : Nat.repr n = String.mk (decDigits n) := by
  show String.mk (Nat.toDigitsCore 10 (n + 1) n []) = _
  rw [toDigitsCore_eq _ _ _ (by omega), List.append_nil]

/-- Value of a digit character (inverse of `Nat.digitChar` below 10). -/
def decDigitVal (c : Char) : Nat :=
  if c = '0' then 0 else if c = '1' then 1 else if c = '2' then 2
  else if c = '3' then 3 else if c = '4' then 4 else if c = '5' then 5
  else if c = '6' then 6 else if c = '7' then 7 else if c = '8' then 8
  else if c = '9' then 9 else 0

lemma decDigitVal_digitChar (k : Nat) (h : k < 10) :
    decDigitVal (Nat.digitChar k) = k := by
  interval_cases k <;> rfl

/-- The number a list of decimal digit characters denotes. -/
def decValue (l : List Char) : Nat := l.foldl (fun a c => 10 * a + decDigitVal c) 0

lemma decValue_decDigits (n : Nat) : decValue (decDigits n) = n := by
  induction n using Nat.strong_induction_on with
  | _ n ih =>
    rw [decDigits]
    by_cases h0 : n / 10 = 0
    · rw [dif_pos h0]
      show 10 * 0 + decDigitVal (Nat.digitChar (n % 10)) = n
      rw [decDigitVal_digitChar _ (Nat.mod_lt _ (by omega))]
      omega
    · have hn : 0 < n := by
        rcases Nat.eq_zero_or_pos n with h1 | h1
        · rw [h1] at h0; simp at h0
        · exact h1
      rw [dif_neg h0]
      unfold decValue
      rw [List.foldl_append]
      have := ih (n / 10) (Nat.div_lt_self hn (by omega))
      unfold decValue at this
      rw [this]
      show 10 * (n / 10) + decDigitVal (Nat.digitChar (n % 10)) = n
      rw [decDigitVal_digitChar _ (Nat.mod_lt _ (by omega))]
      omega

lemma natRepr_injective : Function.Injective Nat.repr := by
  intro m n h
  rw [natRepr_eq, natRepr_eq] at h
  have hd : decDigits m = decDigits n := congrArg String.data h
  calc m = decValue (decDigits m) := (decValue_decDigits m).symm
    _ = decValue (decDigits n) := by rw [hd]
    _ = n := decValue_decDigits n

/-! ### Supporting lemmas about the evaluation loop and the cache -/

/-- Skipping a prefix of indeterminate (`null`) slots: the loop advances the
index past them and the tentative verdict becomes `true` if it was still
undefined. -/
lemma isLimitedLoop_nulls (hashFn : String → String)
    (onL : Option (LimitReason → Option Bool)) (now ft : Nat)
    (pre rest : List (Slot × PluginId)) (i : Nat) (tent : Option Bool) (store : Cache)
    (h : ∀ p ∈ pre, p.2 = .indeterminate) :
    isLimitedLoop hashFn onL now ft (pre ++ rest) i tent store =
      isLimitedLoop hashFn onL now ft rest (i + pre.length)
        (if pre.isEmpty then tent else if tent = none then some true else tent) store := by
  induction pre generalizing i tent with
  | nil => simp
  | cons p pre' ih =>
    obtain ⟨slot, id⟩ := p
    have hid : id = .indeterminate := h (slot, id) (List.mem_cons_self _ _)
    subst hid
    rw [List.cons_append, isLimitedLoop]
    rw [ih _ _ (fun q hq => h q (List.mem_cons_of_mem _ hq))]
    have harith : i + 1 + pre'.length = i + (pre'.length + 1) := by omega
    rw [harith]
    congr 1
    by_cases hpre : pre'.isEmpty
    · simp [hpre]
    · simp only [hpre, if_false, List.isEmpty_cons, List.length_cons]
      cases tent <;> simp

lemma cacheGet_cons (p : String × StoreEntry) (ps : Cache) (now : Nat) (k : String) :
    cacheGet (p :: ps) now k =
      if p.1 == k then (if now < p.2.expireAt then some p.2.value else none)
      else cacheGet ps now k := by
  unfold cacheGet
  by_cases hp : p.1 == k
  · rw [List.find?_cons_of_pos (p := fun (q : String × StoreEntry) => q.1 == k) _ hp,
      if_pos hp]
  · rw [List.find?_cons_of_neg (p := fun (q : String × StoreEntry) => q.1 == k) _
      (by simpa using hp), if_neg hp]

/-- Writing over a live key: the new value is read back (the expiry is kept,
so the key stays live at the same instant). -/
lemma cacheGet_cacheSet_live (store : Cache) (now : Nat) (k : String) (c v ttl : Nat)
    (h : cacheGet store now k = some c) :
    cacheGet (cacheSet store now k v ttl) now k = some v := by
  unfold cacheSet
  rw [h]
  simp only [Option.isSome_some, if_true]
  induction store with
  | nil => simp [cacheGet] at h
  | cons p ps ih =>
    rw [cacheGet_cons] at h
    by_cases hp : p.1 == k
    · rw [if_pos hp] at h
      simp only [List.map_cons, if_pos hp]
      rw [cacheGet_cons, if_pos hp]
      split at h
      · next hlt => simp only [hlt, if_pos]
      · exact absurd h (by simp)
    · rw [if_neg hp] at h
      simp only [List.map_cons, if_neg hp]
      rw [cacheGet_cons, if_neg hp]
      exact ih h

/-- One `_isLimited` call on a single token slot whose counter is live with
count `c`: the count becomes `c + 1` and the verdict compares it with the
limit. -/
lemma rateLimit_single_step (hashFn : String → String) (limit window : Nat)
    (tok : String) (htok : tok ≠ "") (c exp t : Nat) (ht : t < exp) :
    rateLimit hashFn none [(⟨limit, window⟩, .token tok)] t
        [(slotKey hashFn 0 tok, ⟨c, exp⟩)] =
      .ok (if limit < c + 1 then (⟨true, some (slotKey hashFn 0 tok), window⟩ : RLResult)
           else ⟨false, none, window⟩,
           [(slotKey hashFn 0 tok, ⟨c + 1, exp⟩)]) := by
  unfold rateLimit isLimitedLoop
  simp only [htok, if_false, lastWindow]
  unfold ttlStoreAdd
  rw [cacheGet_cons]
  simp only [beq_self_eq_true, if_pos, ht, if_true, Option.getD_some]
  unfold cacheSet
  rw [cacheGet_cons]
  simp only [beq_self_eq_true, if_pos, ht, if_true, Option.isSome_some, List.map_cons,
    List.map_nil]
  by_cases hl : limit < c + 1
  · simp [hl, isLimitedLoop]
  · simp [hl, isLimitedLoop]

/-- One `_isLimited` call on a single token slot with an empty store: the
counter is created with count 1 and expiry `t + window`. -/
lemma rateLimit_first_step (hashFn : String → String) (limit window : Nat)
    (tok : String) (htok : tok ≠ "") (t : Nat) :
    rateLimit hashFn none [(⟨limit, window⟩, .token tok)] t [] =
      .ok (if limit < 1 then (⟨true, some (slotKey hashFn 0 tok), window⟩ : RLResult)
           else ⟨false, none, window⟩,
           [(slotKey hashFn 0 tok, ⟨1, t + window⟩)]) := by
  unfold rateLimit isLimitedLoop
  simp only [htok, if_false, lastWindow]
  unfold ttlStoreAdd cacheGet cacheSet cacheGet
  simp only [List.find?_nil, Option.getD_none, Option.isSome_none, List.filter_nil]
  by_cases hl : limit < 1
  · simp [hl, isLimitedLoop]
  · simp [hl, isLimitedLoop]

/-- A sequence of calls on a single token slot whose counter is live with
count `c` throughout: counts increment by one per call and each verdict
compares the incremented count with the limit. -/
lemma rateLimitSeq_single (hashFn : String → String) (limit window : Nat)
    (tok : String) (htok : tok ≠ "") (exp : Nat) (ts : List Nat) (c : Nat)
    (hts : ∀ t ∈ ts, t < exp) :
    rateLimitSeq hashFn none [(⟨limit, window⟩, .token tok)] ts
        [(slotKey hashFn 0 tok, ⟨c, exp⟩)] =
      ((List.range ts.length).map (fun j =>
         if limit < c + j + 1 then Except.ok ⟨true, some (slotKey hashFn 0 tok), window⟩
         else Except.ok ⟨false, none, window⟩),
       [(slotKey hashFn 0 tok, ⟨c + ts.length, exp⟩)]) := by
  induction ts generalizing c with
  | nil => simp [rateLimitSeq]
  | cons t ts' ih =>
    rw [rateLimitSeq, rateLimit_single_step hashFn limit window tok htok c exp t
      (hts t (List.mem_cons_self _ _))]
    simp only []
    rw [ih (c + 1) (fun x hx => hts x (List.mem_cons_of_mem _ hx))]
    congr 1
    · simp only [List.length_cons, List.range_succ_eq_map, List.map_cons, List.map_map]
      congr 1
      · rw [apply_ite Except.ok]
      · refine List.map_congr_left (fun j hj => ?_)
        simp only [Function.comp_apply]
        exact if_congr (by omega) rfl rfl
    · simp only [List.length_cons]
      rw [show c + 1 + ts'.length = c + (ts'.length + 1) from by omega]

/-! ### Claim theorems -/

/-- C1: for a limiter with a single token-producing plugin of rate
(limit, window) and a fixed non-empty identity token, in a sequence of calls
all inside the window opened by the first call, the `j`-th call (1-based
`j + 1`) is limited exactly when `j + 1 > limit` — so the first `limit`
calls report not-limited and the (limit+1)-th and all later calls report
limited — and the store count is incremented on every call, reaching the
number of calls made. -/
theorem C1_single_plugin_window_threshold (limit window : Nat) (tok : String)
    (htok : tok ≠ "") (hashFn : String → String) (t1 : Nat) (rest : List Nat)
    (hrest : ∀ t ∈ rest, t < t1 + window) :
    rateLimitSeq hashFn none [(⟨limit, window⟩, .token tok)] (t1 :: rest) [] =
      ((List.range (rest.length + 1)).map (fun j =>
         if limit < j + 1 then Except.ok ⟨true, some (slotKey hashFn 0 tok), window⟩
         else Except.ok ⟨false, none, window⟩),
       [(slotKey hashFn 0 tok, ⟨rest.length + 1, t1 + window⟩)]) := by
  rw [rateLimitSeq, rateLimit_first_step hashFn limit window tok htok t1]
  simp only []
  rw [rateLimitSeq_single hashFn limit window tok htok (t1 + window) rest 1 hrest]
  congr 1
  · simp only [List.range_succ_eq_map, List.map_cons, List.map_map]
    congr 1
    · rw [apply_ite Except.ok]
    · refine List.map_congr_left (fun j hj => ?_)
      simp only [Function.comp_apply]
      exact if_congr (by omega) rfl rfl
  · rw [show (1 : Nat) + rest.length = rest.length + 1 from by omega]

/-- C1 witness: limit 1, window 10, calls at 0, 1, 2. -/
theorem C1_single_plugin_window_threshold_witness :
    ("x" ≠ "" ∧ ∀ t ∈ [1, 2], t < 0 + 10) ∧
    rateLimitSeq (fun s => s) none [(⟨1, 10⟩, .token "x")] (0 :: [1, 2]) [] =
      ((List.range ([1, 2].length + 1)).map (fun j =>
         if 1 < j + 1 then Except.ok ⟨true, some (slotKey (fun s => s) 0 "x"), 10⟩
         else Except.ok ⟨false, none, 10⟩),
       [(slotKey (fun s => s) 0 "x", ⟨[1, 2].length + 1, 0 + 10⟩)]) :=
  ⟨⟨by decide, by decide⟩,
   C1_single_plugin_window_threshold 1 10 "x" (by decide) (fun s => s) 0 [1, 2] (by decide)⟩

/-- C2: when the slot loop runs to completion without an early return, the
verdict is `tentativeLimited ?? false`: a nonempty chain in which every slot
is indeterminate (`null`) reports limited (fail-closed) with the store
untouched, while a chain in which some slot produced a non-empty counted
token that stayed within its limit (all other slots indeterminate) reports
not-limited, with exactly that one counter incremented. -/
theorem C2_loop_completion_verdict :
    (∀ (hashFn : String → String) (onL : Option (LimitReason → Option Bool))
       (slots : List (Slot × PluginId)) (now : Nat) (store : Cache),
       slots ≠ [] → (∀ p ∈ slots, p.2 = .indeterminate) →
       rateLimit hashFn onL slots now store =
         .ok (⟨true, none, lastWindow slots⟩, store)) ∧
    (∀ (hashFn : String → String) (onL : Option (LimitReason → Option Bool))
       (pre post : List (Slot × PluginId)) (slot : Slot) (tok : String)
       (now : Nat) (store : Cache),
       tok ≠ "" → (∀ p ∈ pre, p.2 = .indeterminate) →
       (∀ p ∈ post, p.2 = .indeterminate) →
       (ttlStoreAdd store now (slotKey hashFn pre.length tok) slot.window).1 ≤ slot.limit →
       rateLimit hashFn onL (pre ++ (slot, .token tok) :: post) now store =
         .ok (⟨false, none, lastWindow (pre ++ (slot, .token tok) :: post)⟩,
              (ttlStoreAdd store now (slotKey hashFn pre.length tok) slot.window).2)) := by
  constructor
  · intro hashFn onL slots now store hne hnull
    unfold rateLimit
    rw [← List.append_nil slots,
      isLimitedLoop_nulls hashFn onL now _ slots [] 0 none store hnull]
    have : slots.isEmpty = false := by
      cases slots
      · simp at hne
      · rfl
    simp [this, isLimitedLoop, List.append_nil]
  · intro hashFn onL pre post slot tok now store htok hpre hpost hcount
    unfold rateLimit
    rw [isLimitedLoop_nulls hashFn onL now _ pre _ 0 none store hpre]
    rw [isLimitedLoop]
    simp only [htok, if_false, Nat.zero_add]
    rw [if_neg (by omega)]
    rw [← List.append_nil post,
      isLimitedLoop_nulls hashFn onL now _ post [] _ (some false) _ hpost]
    have htent : (if post.isEmpty then (some false : Option Bool)
        else if (some false : Option Bool) = none then some true else some false) =
          some false := by
      by_cases h : post.isEmpty <;> simp [h]
    rw [htent, isLimitedLoop]
    simp [List.append_nil]

/-- C2 witness: two indeterminate slots fail closed; an indeterminate slot
followed by a counted token within its limit and another indeterminate slot
reports not-limited. -/
theorem C2_loop_completion_verdict_witness :
    (([(⟨2, 30⟩, PluginId.indeterminate), (⟨1, 60⟩, PluginId.indeterminate)] :
        List (Slot × PluginId)) ≠ [] ∧
     (∀ p ∈ ([(⟨2, 30⟩, PluginId.indeterminate), (⟨1, 60⟩, PluginId.indeterminate)] :
        List (Slot × PluginId)), p.2 = PluginId.indeterminate) ∧
     "u" ≠ "" ∧
     (ttlStoreAdd [] 5
       (slotKey (fun s => s) [((⟨2, 30⟩ : Slot), PluginId.indeterminate)].length "u")
       (⟨3, 60⟩ : Slot).window).1 ≤ (⟨3, 60⟩ : Slot).limit) ∧
    rateLimit (fun s => s) none
        [(⟨2, 30⟩, .indeterminate), (⟨1, 60⟩, .indeterminate)] 5 [] =
      .ok (⟨true, none,
            lastWindow [(⟨2, 30⟩, .indeterminate), (⟨1, 60⟩, .indeterminate)]⟩, []) ∧
    rateLimit (fun s => s) none
        ([(⟨2, 30⟩, .indeterminate)] ++ (⟨3, 60⟩, .token "u") :: [(⟨9, 90⟩, .indeterminate)])
        5 [] =
      .ok (⟨false, none,
            lastWindow ([(⟨2, 30⟩, .indeterminate)] ++
              (⟨3, 60⟩, .token "u") :: [(⟨9, 90⟩, .indeterminate)])⟩,
           (ttlStoreAdd [] 5
             (slotKey (fun s => s) [((⟨2, 30⟩ : Slot), PluginId.indeterminate)].length "u")
             (⟨3, 60⟩ : Slot).window).2) :=
  ⟨⟨by decide, by decide, by decide, by decide⟩,
   C2_loop_completion_verdict.1 (fun s => s) none _ 5 [] (by decide) (by decide),
   C2_loop_completion_verdict.2 (fun s => s) none [(⟨2, 30⟩, .indeterminate)]
     [(⟨9, 90⟩, .indeterminate)] ⟨3, 60⟩ "u" 5 [] (by decide) (by decide) (by decide)
     (by decide)⟩

/-- C3: after any prefix of indeterminate slots, a slot whose plugin returns
`false` ends evaluation at once with limited = true (or limited = false when
the `onLimited` callback returns `true`), and a slot returning `true` ends
evaluation at once with limited = false; in every such case the store is
returned unchanged — no counter is incremented for that slot or any later
slot. -/
theorem C3_boolean_short_circuit :
    (∀ (hashFn : String → String) (pre post : List (Slot × PluginId)) (slot : Slot)
       (now : Nat) (store : Cache),
       (∀ p ∈ pre, p.2 = .indeterminate) →
       rateLimit hashFn none (pre ++ (slot, .reject) :: post) now store =
         .ok (⟨true, none, slot.window⟩, store)) ∧
    (∀ (hashFn : String → String) (cb : LimitReason → Option Bool)
       (pre post : List (Slot × PluginId)) (slot : Slot) (now : Nat) (store : Cache),
       (∀ p ∈ pre, p.2 = .indeterminate) →
       rateLimit hashFn (some cb) (pre ++ (slot, .reject) :: post) now store =
         .ok (⟨if cb .rejected = some true then false else true, none, slot.window⟩,
              store)) ∧
    (∀ (hashFn : String → String) (onL : Option (LimitReason → Option Bool))
       (pre post : List (Slot × PluginId)) (slot : Slot) (now : Nat) (store : Cache),
       (∀ p ∈ pre, p.2 = .indeterminate) →
       rateLimit hashFn onL (pre ++ (slot, .allow) :: post) now store =
         .ok (⟨false, none, slot.window⟩, store)) := by
  refine ⟨?_, ?_, ?_⟩
  · intro hashFn pre post slot now store hpre
    unfold rateLimit
    rw [isLimitedLoop_nulls hashFn none now _ pre _ 0 none store hpre, isLimitedLoop]
  · intro hashFn cb pre post slot now store hpre
    unfold rateLimit
    rw [isLimitedLoop_nulls hashFn (some cb) now _ pre _ 0 none store hpre, isLimitedLoop]
    split <;> simp_all
  · intro hashFn onL pre post slot now store hpre
    unfold rateLimit
    rw [isLimitedLoop_nulls hashFn onL now _ pre _ 0 none store hpre, isLimitedLoop]

/-- C3 witness: a rejecting slot after an indeterminate slot, with and
without an overriding callback, and an allowing slot; the later token slot
is never counted. -/
theorem C3_boolean_short_circuit_witness :
    (∀ p ∈ ([(⟨2, 30⟩, PluginId.indeterminate)] : List (Slot × PluginId)),
       p.2 = PluginId.indeterminate) ∧
    rateLimit (fun s => s) none
        ([(⟨2, 30⟩, .indeterminate)] ++ (⟨5, 60⟩, .reject) :: [(⟨7, 90⟩, .token "z")])
        4 [] =
      .ok (⟨true, none, (⟨5, 60⟩ : Slot).window⟩, []) ∧
    rateLimit (fun s => s) (some (fun _ => some true))
        ([(⟨2, 30⟩, .indeterminate)] ++ (⟨5, 60⟩, .reject) :: [(⟨7, 90⟩, .token "z")])
        4 [] =
      .ok (⟨if (fun (_ : LimitReason) => some true) .rejected = some true then false
            else true, none, (⟨5, 60⟩ : Slot).window⟩, []) ∧
    rateLimit (fun s => s) none
        ([(⟨2, 30⟩, .indeterminate)] ++ (⟨5, 60⟩, .allow) :: [(⟨7, 90⟩, .token "z")])
        4 [] =
      .ok (⟨false, none, (⟨5, 60⟩ : Slot).window⟩, []) :=
  ⟨by decide,
   C3_boolean_short_circuit.1 (fun s => s) [(⟨2, 30⟩, .indeterminate)]
     [(⟨7, 90⟩, .token "z")] ⟨5, 60⟩ 4 [] (by decide),
   C3_boolean_short_circuit.2.1 (fun s => s) (fun _ => some true)
     [(⟨2, 30⟩, .indeterminate)] [(⟨7, 90⟩, .token "z")] ⟨5, 60⟩ 4 [] (by decide),
   C3_boolean_short_circuit.2.2 (fun s => s) none [(⟨2, 30⟩, .indeterminate)]
     [(⟨7, 90⟩, .token "z")] ⟨5, 60⟩ 4 [] (by decide)⟩

/-- C4 counterexample: the claim says the keyless limited path reports
`ceil(window / 1000)` retry seconds, but `toSeconds` floors: a rejecting
slot with a 100 ms window reports 0 retry seconds, while
`ceil(100 / 1000) = 1`. -/
theorem C4_ceil_counterexample :
    retryCheck (fun s => s) none [(⟨5, 100⟩, .reject)] 0 [] [] =
      .ok (⟨true, 0⟩, [], []) ∧ (0 : Nat) ≠ (100 + 1000 - 1) / 1000 :=
  ⟨rfl, by decide⟩

/-- C4 (amended): for every limited verdict with no counter key involved,
`check` reports `retryAfter = max(0, floor(ttl / 1000))` — the attributed
slot's window floored to seconds — and the Retry-Delay Store is neither
read nor written. -/
theorem C4_keyless_retry_after_floor :
    ∀ (hashFn : String → String) (onL : Option (LimitReason → Option Bool))
      (slots : List (Slot × PluginId)) (now : Nat) (store retryStore : Cache)
      (r : RLResult) (store' : Cache),
      rateLimit hashFn onL slots now store = .ok (r, store') →
      r.limited = true → r.hash = none →
      retryCheck hashFn onL slots now store retryStore =
        .ok (⟨true, toSeconds r.ttl⟩, store', retryStore) := by
  intro hashFn onL slots now store retryStore r store' hrl hlim hhash
  unfold retryCheck
  rw [hrl]
  simp [hlim, hhash]

/-- C4 witness: the rejecting 100 ms slot. -/
theorem C4_keyless_retry_after_floor_witness :
    (rateLimit (fun s => s) none [(⟨5, 100⟩, PluginId.reject)] 0 [] =
       .ok (⟨true, none, 100⟩, []) ∧
     (⟨true, none, 100⟩ : RLResult).limited = true ∧
     (⟨true, none, 100⟩ : RLResult).hash = none) ∧
    retryCheck (fun s => s) none [(⟨5, 100⟩, .reject)] 0 [] [] =
      .ok (⟨true, toSeconds (⟨true, none, 100⟩ : RLResult).ttl⟩, [], []) :=
  ⟨⟨rfl, rfl, rfl⟩,
   C4_keyless_retry_after_floor (fun s => s) none [(⟨5, 100⟩, .reject)] 0 [] []
     ⟨true, none, 100⟩ [] rfl rfl rfl⟩

/-- C5 counterexample: with a hash function the configuration permits
(any `string → string`), the composite keys of distinct slots can collide:
slot 1 with token "2x" and slot 12 with token "x" produce the same key
"12x" under the identity hash. -/
theorem C5_key_collision_counterexample :
    slotKey (fun s => s) 1 "2x" = slotKey (fun s => s) 12 "x" ∧ (1 : Nat) ≠ 12 := by
  decide

/-- C5 (amended): when all outputs of the hash function have one common
length (as the default SHA-256 hex digest does), composite keys of distinct
slots never collide, whatever the identity tokens. -/
theorem C5_key_injective_fixed_length_hash :
    ∀ (hashFn : String → String) (L : Nat), (∀ x, (hashFn x).length = L) →
      ∀ (i j : Nat) (a b : String), i ≠ j →
        slotKey hashFn i a ≠ slotKey hashFn j b := by
  intro hashFn L hL i j a b hij heq
  apply hij
  apply natRepr_injective
  unfold slotKey at heq
  have hlen : (toString i).length = (toString j).length := by
    have h1 := congrArg String.length heq
    rw [String.length_append, String.length_append, hL a, hL b] at h1
    omega
  have hdata : (toString i).data ++ (hashFn a).data =
      (toString j).data ++ (hashFn b).data := by
    have h2 := congrArg String.data heq
    rwa [String.data_append, String.data_append] at h2
  have hdl : (toString i).data.length = (toString j).data.length := hlen
  have heqd : (toString i).data = (toString j).data := (List.append_inj hdata hdl).1
  exact String.ext heqd

/-- C5 witness: a constant one-character hash separates slots 0 and 1. -/
theorem C5_key_injective_fixed_length_hash_witness :
    (∀ x : String, ((fun (_ : String) => "h") x).length = 1) ∧ (0 : Nat) ≠ 1 ∧
    slotKey (fun _ => "h") 0 "a" ≠ slotKey (fun _ => "h") 1 "b" :=
  ⟨fun _ => rfl, by decide,
   C5_key_injective_fixed_length_hash (fun _ => "h") 1 (fun _ => rfl) 0 1 "a" "b"
     (by decide)⟩

/-- C6: a successfully constructed limiter has its flattened slot list
sorted ascending by window with ties broken by ascending limit (`slotRel`),
and neither an `isLimited` call (which evaluates the slots in exactly this
list order) nor `clear` changes the slot list. -/
theorem C6_slots_sorted_and_immutable :
    ∀ (confs : List (List (Nat × RateUnit))) (l : Limiter),
      newRateLimiter confs = .ok l →
      List.Sorted slotRel l.plugins ∧
      (∀ (hashFn : String → String) (onL : Option (LimitReason → Option Bool))
         (ids : Nat → PluginId) (now : Nat) (r : RLResult) (l' : Limiter),
         limiterCall hashFn onL ids now l = .ok (r, l') → l'.plugins = l.plugins) ∧
      (limiterClear l).plugins = l.plugins := by
  intro confs l hl
  refine ⟨?_, ?_, rfl⟩
  · unfold newRateLimiter at hl
    cases hb : buildSlots confs with
    | error e => rw [hb] at hl; exact absurd hl (by simp)
    | ok slots =>
      rw [hb] at hl
      have hls : l = ⟨slots, []⟩ := by
        injection hl with h
        exact h.symm
      subst hls
      unfold buildSlots at hb
      by_cases h1 : confs.any (fun c => c.isEmpty)
      · rw [if_pos h1] at hb; exact absurd hb (by simp)
      · rw [if_neg h1] at hb
        by_cases h2 : ((confs.map (fun c =>
            c.map (fun r => (⟨r.1, TTLTime r.2⟩ : Slot)))).flatten).isEmpty
        · rw [if_pos h2] at hb; exact absurd hb (by simp)
        · rw [if_neg h2] at hb
          have h3 : slots = ((confs.map (fun c =>
              c.map (fun r => (⟨r.1, TTLTime r.2⟩ : Slot)))).flatten).insertionSort
                slotRel := by
            injection hb with h
            exact h.symm
          show List.Sorted slotRel slots
          rw [h3]
          exact List.sorted_insertionSort slotRel _
  · intro hashFn onL ids now r l' hcall
    unfold limiterCall at hcall
    cases hr : rateLimit hashFn onL (l.plugins.enum.map (fun p => (p.2, ids p.1)))
        now l.store with
    | error e => rw [hr] at hcall; exact absurd hcall (by simp)
    | ok p =>
      rw [hr] at hcall
      obtain ⟨r', store'⟩ := p
      have hl' : l' = { l with store := store' } := by
        injection hcall with h
        injection h
        simp_all
      rw [hl']

/-- C6 witness: a limiter built from rates (5, m), (3, s), (10, m). -/
theorem C6_slots_sorted_and_immutable_witness :
    newRateLimiter [[(5, .m)], [(3, .s), (10, .m)]] =
      .ok ⟨[⟨3, 1000⟩, ⟨5, 60000⟩, ⟨10, 60000⟩], []⟩ ∧
    (List.Sorted slotRel
       (⟨[⟨3, 1000⟩, ⟨5, 60000⟩, ⟨10, 60000⟩], []⟩ : Limiter).plugins ∧
     (∀ (hashFn : String → String) (onL : Option (LimitReason → Option Bool))
        (ids : Nat → PluginId) (now : Nat) (r : RLResult) (l' : Limiter),
        limiterCall hashFn onL ids now ⟨[⟨3, 1000⟩, ⟨5, 60000⟩, ⟨10, 60000⟩], []⟩ =
          .ok (r, l') →
        l'.plugins = (⟨[⟨3, 1000⟩, ⟨5, 60000⟩, ⟨10, 60000⟩], []⟩ : Limiter).plugins) ∧
     (limiterClear ⟨[⟨3, 1000⟩, ⟨5, 60000⟩, ⟨10, 60000⟩], []⟩).plugins =
       (⟨[⟨3, 1000⟩, ⟨5, 60000⟩, ⟨10, 60000⟩], []⟩ : Limiter).plugins) :=
  ⟨rfl,
   C6_slots_sorted_and_immutable [[(5, .m)], [(3, .s), (10, .m)]]
     ⟨[⟨3, 1000⟩, ⟨5, 60000⟩, ⟨10, 60000⟩], []⟩ rfl⟩

/-- The reachable-state invariant of the Retry-Delay Store: every entry's
stored value is the absolute timestamp it expires at (`add` only ever
stores `now + ttl` under expiry `now + ttl`). -/
def retryInvariant (c : Cache) : Prop := ∀ p ∈ c, p.2.value = p.2.expireAt

/-- A live read exhibits an entry of the cache. -/
lemma cacheGet_mem (store : Cache) (now : Nat) (k : String) (v : Nat)
    (h : cacheGet store now k = some v) :
    ∃ p ∈ store, p.2.value = v ∧ now < p.2.expireAt := by
  unfold cacheGet at h
  cases hf : List.find? (fun p => p.1 == k) store with
  | none => rw [hf] at h; simp at h
  | some p =>
    rw [hf] at h
    have h' : (if now < p.2.expireAt then some p.2.value else none) = some v := h
    by_cases hlt : now < p.2.expireAt
    · rw [if_pos hlt] at h'
      exact ⟨p, List.mem_of_find?_eq_some hf, Option.some.inj h', hlt⟩
    · rw [if_neg hlt] at h'
      simp at h'

/-- The invariant holds initially and is preserved by `add` (the branch
that could break it — overwriting a live zero-valued entry — requires a
live entry whose value, hence expiry, is 0, which liveness excludes). -/
lemma retryInvariant_preserved (store : Cache) (now : Nat) (k : String) (ttl : Nat)
    (h : retryInvariant store) :
    retryInvariant (retryStoreAdd store now k ttl).2 := by
  unfold retryStoreAdd
  cases hg : cacheGet store now k with
  | some v =>
    by_cases hv : v ≠ 0
    · simpa [hv] using h
    · obtain ⟨p, hmem, hval, hlt⟩ := cacheGet_mem store now k v hg
      have := h p hmem
      omega
  | none =>
    simp only []
    unfold cacheSet
    rw [hg]
    simp only [Option.isSome_none, Bool.false_eq_true, if_false]
    intro p hp
    rcases List.mem_cons.mp hp with hp1 | hp2
    · rw [hp1]
    · exact h p (List.mem_of_mem_filter hp2)

/-- C7: on every store satisfying the reachability invariant, reserve
(`RetryAfterStore.add`) is idempotent within a window — a live key returns
its stored absolute timestamp with the store unchanged — and a key with no
live entry stores and returns `now + ttl`, with TTL equal to the window
(the fresh entry expires at `now + ttl`). -/
theorem C7_retry_store_reserve_idempotent :
    ∀ (store : Cache) (now : Nat) (k : String) (ttl : Nat),
      retryInvariant store →
      (∀ v, cacheGet store now k = some v →
         retryStoreAdd store now k ttl = (v, store)) ∧
      (cacheGet store now k = none →
         retryStoreAdd store now k ttl =
           (now + ttl,
            (k, ⟨now + ttl, now + ttl⟩) :: store.filter (fun p => !(p.1 == k)))) := by
  intro store now k ttl hinv
  constructor
  · intro v hv
    unfold retryStoreAdd
    rw [hv]
    obtain ⟨p, hmem, hval, hlt⟩ := cacheGet_mem store now k v hv
    have hv0 : v ≠ 0 := by
      have := hinv p hmem
      omega
    simp [hv0]
  · intro hv
    unfold retryStoreAdd cacheSet
    rw [hv]
    simp

/-- C7 witness: a live entry ("k" ↦ 50, expiring at 50, read at 10) is
returned unchanged; a fresh key reserves `now + ttl`. -/
theorem C7_retry_store_reserve_idempotent_witness :
    (retryInvariant [("k", ⟨50, 50⟩)] ∧
     cacheGet [("k", ⟨50, 50⟩)] 10 "k" = some 50) ∧
    retryStoreAdd [("k", ⟨50, 50⟩)] 10 "k" 7 = (50, [("k", ⟨50, 50⟩)]) :=
  ⟨⟨by unfold retryInvariant; decide, by decide⟩,
   (C7_retry_store_reserve_idempotent [("k", ⟨50, 50⟩)] 10 "k" 7
     (by unfold retryInvariant; decide)).1 50 (by decide)⟩

/-- C8 counterexample: a cookie that is exactly of the claimed form
`identifier + ";" + hash(secret + identifier)` with both parts non-empty
and the signature matching — using a permitted hash function whose output
contains a `;` — is rejected by the code (the split yields three fields and
the comparison uses only the second), so the claimed "exactly when" fails. -/
theorem C8_cookie_form_counterexample :
    some "a;h;h" = some ("a" ++ ";" ++ (fun (_ : String) => "h;h") ("s" ++ "a")) ∧
    "a" ≠ "" ∧ (fun (_ : String) => "h;h") ("s" ++ "a") ≠ "" ∧
    userIdFromCookie (fun _ => "h;h") "s" (some "a;h;h") = none :=
  ⟨by decide, by decide, by decide, by decide⟩

/-- C8 (amended): under the preflight-required policy, the identity
derivation returns `id` exactly when the cookie's first two `;`-separated
fields are `id` and `hash(secret + id)`, both non-empty (later fields, if
any, are ignored); in every other state — including a missing cookie — it
returns null, so invalid and missing cookies are treated identically. -/
theorem C8_cookie_identity_by_fields :
    ∀ (hashFn : String → String) (secret : String) (cookie : Option String)
      (id : String),
      (userIdFromCookie hashFn secret cookie = some id ↔
        (∃ c, cookie = some c ∧ (cookieFields c).getD 0 "" = id ∧ id ≠ "" ∧
          (cookieFields c).getD 1 "" = hashFn (secret ++ id) ∧
          hashFn (secret ++ id) ≠ "")) ∧
      userIdFromCookie hashFn secret none = none := by
  intro hashFn secret cookie id
  constructor
  · constructor
    · intro h
      cases cookie with
      | none => simp [userIdFromCookie] at h
      | some c =>
        refine ⟨c, rfl, ?_⟩
        unfold userIdFromCookie at h
        have h' : (if c = "" then none
            else if (cookieFields c).getD 0 "" = "" ∨ (cookieFields c).getD 1 "" = ""
              then none
            else if hashFn (secret ++ (cookieFields c).getD 0 "") ≠
                (cookieFields c).getD 1 "" then none
            else some ((cookieFields c).getD 0 "")) = some id := h
        by_cases hc : c = ""
        · rw [if_pos hc] at h'; simp at h'
        · rw [if_neg hc] at h'
          by_cases h0 : (cookieFields c).getD 0 "" = "" ∨ (cookieFields c).getD 1 "" = ""
          · rw [if_pos h0] at h'; simp at h'
          · rw [if_neg h0] at h'
            by_cases hs : hashFn (secret ++ (cookieFields c).getD 0 "") ≠
                (cookieFields c).getD 1 ""
            · rw [if_pos hs] at h'; simp at h'
            · rw [if_neg hs] at h'
              have hid : (cookieFields c).getD 0 "" = id := Option.some.inj h'
              push_neg at h0 hs
              subst hid
              exact ⟨rfl, h0.1, hs.symm, by rw [hs]; exact h0.2⟩
    · intro hex
      obtain ⟨c, hc, h0, hid, h1, hh⟩ := hex
      subst hc
      unfold userIdFromCookie
      show (if c = "" then none
          else if (cookieFields c).getD 0 "" = "" ∨ (cookieFields c).getD 1 "" = ""
            then none
          else if hashFn (secret ++ (cookieFields c).getD 0 "") ≠
              (cookieFields c).getD 1 "" then none
          else some ((cookieFields c).getD 0 "")) = some id
      have hcne : c ≠ "" := by
        intro hce
        subst hce
        have hz : (cookieFields "").getD 0 "" = "" := by decide
        rw [hz] at h0
        exact hid h0.symm
      rw [if_neg hcne]
      rw [if_neg (by push_neg; subst h0; exact ⟨hid, by rw [h1]; exact hh⟩)]
      rw [if_neg (by push_neg; rw [h0, h1])]
      rw [h0]
  · simp [userIdFromCookie]

/-- C9: a slot whose plugin returns the empty string (reached after any
prefix of indeterminate slots) makes the evaluation throw the
"Empty hash" error: the verdict is an error, not a rate decision, and the
store is left untouched (the empty token is never counted). -/
theorem C9_empty_token_throws :
    ∀ (hashFn : String → String) (onL : Option (LimitReason → Option Bool))
      (pre post : List (Slot × PluginId)) (slot : Slot) (now : Nat) (store : Cache),
      (∀ p ∈ pre, p.2 = .indeterminate) →
      rateLimit hashFn onL (pre ++ (slot, .token "") :: post) now store =
        .error "Empty hash returned from rate limiter" ∧
      rateLimitSeq hashFn onL (pre ++ (slot, .token "") :: post) [now] store =
        ([.error "Empty hash returned from rate limiter"], store) := by
  intro hashFn onL pre post slot now store hpre
  have h1 : rateLimit hashFn onL (pre ++ (slot, .token "") :: post) now store =
      .error "Empty hash returned from rate limiter" := by
    unfold rateLimit
    rw [isLimitedLoop_nulls hashFn onL now _ pre _ 0 none store hpre, isLimitedLoop]
    simp
  refine ⟨h1, ?_⟩
  rw [rateLimitSeq, h1]
  simp [rateLimitSeq]

/-- C9 witness: an indeterminate slot, then an empty-token slot, over a
nonempty store that is left unchanged. -/
theorem C9_empty_token_throws_witness :
    (∀ p ∈ ([(⟨2, 30⟩, PluginId.indeterminate)] : List (Slot × PluginId)),
       p.2 = PluginId.indeterminate) ∧
    (rateLimit (fun s => s) none
        ([(⟨2, 30⟩, .indeterminate)] ++ (⟨5, 60⟩, .token "") :: []) 3
        [("0x", ⟨1, 9⟩)] =
       .error "Empty hash returned from rate limiter" ∧
     rateLimitSeq (fun s => s) none
        ([(⟨2, 30⟩, .indeterminate)] ++ (⟨5, 60⟩, .token "") :: []) [3]
        [("0x", ⟨1, 9⟩)] =
       ([.error "Empty hash returned from rate limiter"], [("0x", ⟨1, 9⟩)])) :=
  ⟨by decide,
   C9_empty_token_throws (fun s => s) none [(⟨2, 30⟩, .indeterminate)] [] ⟨5, 60⟩ 3
     [("0x", ⟨1, 9⟩)] (by decide)⟩

/-- C10: when a counted slot (reached after any prefix of indeterminate
slots) exceeds its limit and the `onLimited` callback returns `true`, the
call reports not-limited, but the increment already performed is kept: the
returned store holds the incremented count under the slot's key, so the
overridden call still counts toward the limit in later evaluations. -/
theorem C10_override_keeps_increment :
    ∀ (hashFn : String → String) (cb : LimitReason → Option Bool)
      (pre post : List (Slot × PluginId)) (slot : Slot) (tok : String)
      (now : Nat) (store : Cache) (c : Nat),
      tok ≠ "" → (∀ p ∈ pre, p.2 = .indeterminate) → cb .rate = some true →
      cacheGet store now (slotKey hashFn pre.length tok) = some c →
      slot.limit ≤ c →
      rateLimit hashFn (some cb) (pre ++ (slot, .token tok) :: post) now store =
        .ok (⟨false, some (slotKey hashFn pre.length tok), slot.window⟩,
             cacheSet store now (slotKey hashFn pre.length tok) (c + 1) slot.window) ∧
      cacheGet (cacheSet store now (slotKey hashFn pre.length tok) (c + 1) slot.window)
          now (slotKey hashFn pre.length tok) = some (c + 1) := by
  intro hashFn cb pre post slot tok now store c htok hpre hcb hget hlim
  refine ⟨?_, cacheGet_cacheSet_live store now _ c (c + 1) slot.window hget⟩
  unfold rateLimit
  rw [isLimitedLoop_nulls hashFn (some cb) now _ pre _ 0 none store hpre, isLimitedLoop]
  simp only [htok, if_false, Nat.zero_add]
  unfold ttlStoreAdd
  rw [hget]
  simp only [Option.getD_some]
  rw [if_pos (by omega), hcb]
  simp

/-- C10 witness: a slot with limit 2 whose counter is already at 2, with an
overriding callback: the call reports not-limited and the counter reads 3. -/
theorem C10_override_keeps_increment_witness :
    ("u" ≠ "" ∧
     (∀ p ∈ ([] : List (Slot × PluginId)), p.2 = PluginId.indeterminate) ∧
     (fun (_ : LimitReason) => some true) .rate = some true ∧
     cacheGet [("0u", ⟨2, 50⟩)] 7
       (slotKey (fun s => s) ([] : List (Slot × PluginId)).length "u") = some 2 ∧
     (⟨2, 40⟩ : Slot).limit ≤ 2) ∧
    (rateLimit (fun s => s) (some (fun _ => some true))
        ([] ++ (⟨2, 40⟩, .token "u") :: []) 7 [("0u", ⟨2, 50⟩)] =
       .ok (⟨false, some (slotKey (fun s => s) ([] : List (Slot × PluginId)).length "u"),
             (⟨2, 40⟩ : Slot).window⟩,
            cacheSet [("0u", ⟨2, 50⟩)] 7
              (slotKey (fun s => s) ([] : List (Slot × PluginId)).length "u") (2 + 1)
              (⟨2, 40⟩ : Slot).window) ∧
     cacheGet (cacheSet [("0u", ⟨2, 50⟩)] 7
         (slotKey (fun s => s) ([] : List (Slot × PluginId)).length "u") (2 + 1)
         (⟨2, 40⟩ : Slot).window) 7
       (slotKey (fun s => s) ([] : List (Slot × PluginId)).length "u") = some (2 + 1)) :=
  ⟨⟨by decide, by decide, by decide, by decide, by decide⟩,
   C10_override_keeps_increment (fun s => s) (fun _ => some true) [] [] ⟨2, 40⟩ "u" 7
     [("0u", ⟨2, 50⟩)] 2 (by decide) (by decide) (by decide) (by decide) (by decide)⟩

/-- C8 witness: with the identity hash and secret "k", the cookie "u;ku"
yields identifier "u", and a missing cookie yields null. -/
theorem C8_cookie_identity_by_fields_witness :
    (userIdFromCookie (fun s => s) "k" (some "u;ku") = some "u" ↔
      (∃ c, (some "u;ku" : Option String) = some c ∧
        (cookieFields c).getD 0 "" = "u" ∧ ("u" : String) ≠ "" ∧
        (cookieFields c).getD 1 "" = (fun (s : String) => s) ("k" ++ "u") ∧
        (fun (s : String) => s) ("k" ++ "u") ≠ "")) ∧
    userIdFromCookie (fun s => s) "k" none = none :=
  C8_cookie_identity_by_fields (fun s => s) "k" (some "u;ku") "u"

end SKRL
